import Mathlib

/-!
# Verification of the lock coordination engine (`lock_manager.py`) and its
HTTP adapter (`http_lock_server.py`)

This file gives a shallow embedding of the lock arbitration engine:

* `LockRequest` / `LockHold` mirror the two namedtuples;
* the engine state is a pair of maps from lock names to optional lists
  (a Python `dict` entry can be absent, or present with an empty list —
  both are falsy, which matters for the error paths, so we keep `Option`);
* `bisect.insort` on a sorted list is embedded as the recursive `insort`
  (insert after all elements not greater, i.e. `insort_right`);
* Python tuple comparison on the namedtuples is the lexicographic order
  `reqLtB` / `holdLtB` on the fields;
* the stateful `itertools.count` tricks in `client_removed` and in the
  shared-grantability filter are embedded with an explicit counter argument;
* timestamps are modelled as integers (Python compares `datetime` values
  totally, and nothing else about them is used);
* each engine operation returns a `(result, state)` pair so that an
  exception raised after a partial mutation keeps the mutated state,
  exactly as the Python object does.

The blocking wait loop of `acquire` is modelled by the outcome of a single
grantability poll: in a serial execution the engine state does not change
between polls, so the loop grants on the first poll or eventually times
out with the state unchanged since enqueue.
-/

namespace LockServer

/-- Mirrors `LockRequest = namedtuple(..., ["priority", "request_timestamp", "lock_type", "client"])`. -/
structure LockRequest where
  priority : Int
  request_timestamp : Int
  lock_type : Int
  client : String
deriving DecidableEq, Repr

/-- Mirrors `LockHold = namedtuple(..., ["lock_type", "client", "acquire_timestamp"])`. -/
structure LockHold where
  lock_type : Int
  client : String
  acquire_timestamp : Int
deriving DecidableEq, Repr

/-- `LockManager.LOCK_EXCLUSIVE = 1`. -/
def LOCK_EXCLUSIVE : Int := 1

/-- `LockManager.LOCK_SHARED = 2`. -/
def LOCK_SHARED : Int := 2

/-- Engine error kinds (`LockManagerNotFound`, `LockManagerTimeout`,
`LockManagerRepeatedAcquire`, and the Python `ValueError` for an unknown
lock type). -/
inductive LMError where
  | notFound
  | timeout
  | repeatedAcquire
  | invalidArgument
deriving DecidableEq, Repr

/-- Engine state: the two dicts `self.locks` and `self.holders`.
`none` models an absent key. -/
structure LMState where
  locks : String → Option (List LockRequest)
  holders : String → Option (List LockHold)

/-- The state of a freshly constructed `LockManager` (both dicts empty). -/
def initState : LMState := ⟨fun _ => none, fun _ => none⟩

/-- `self.locks.get(name, [])`. -/
def requestsOf (st : LMState) (name : String) : List LockRequest :=
  (st.locks name).getD []

/-- `self.holders.get(name, [])`. -/
def holdersOf (st : LMState) (name : String) : List LockHold :=
  (st.holders name).getD []

/-- `self.locks[name] = l` (also the net effect of `setdefault` followed by
an in-place list mutation). -/
def setLocks (st : LMState) (name : String) (l : List LockRequest) : LMState :=
  { st with locks := fun n => if n = name then some l else st.locks n }

/-- `self.holders[name] = l`. -/
def setHolders (st : LMState) (name : String) (l : List LockHold) : LMState :=
  { st with holders := fun n => if n = name then some l else st.holders n }

/-- Python truthiness of `dict.get(name)` for a list value: falsy when the
key is absent or the list is empty. -/
def pyFalsy {α : Type} (o : Option (List α)) : Bool :=
  match o with
  | none => true
  | some l => l.isEmpty

/-- Python `<` on `LockRequest` namedtuples: lexicographic on
`(priority, request_timestamp, lock_type, client)`. -/
def reqLtB (a b : LockRequest) : Bool :=
  decide (a.priority < b.priority) ||
    (decide (a.priority = b.priority) &&
      (decide (a.request_timestamp < b.request_timestamp) ||
        (decide (a.request_timestamp = b.request_timestamp) &&
          (decide (a.lock_type < b.lock_type) ||
            (decide (a.lock_type = b.lock_type) && decide (a.client < b.client))))))

/-- Python `<` on `LockHold` namedtuples: lexicographic on
`(lock_type, client, acquire_timestamp)`. -/
def holdLtB (a b : LockHold) : Bool :=
  decide (a.lock_type < b.lock_type) ||
    (decide (a.lock_type = b.lock_type) &&
      (decide (a.client < b.client) ||
        (decide (a.client = b.client) && decide (a.acquire_timestamp < b.acquire_timestamp))))

/-- `bisect.insort` restricted to sorted lists: insert `x` after every
element `y` with `¬ (x < y)`, which is exactly where `bisect.insort`
(i.e. `insort_right`) places it. -/
def insort (x : LockRequest) : List LockRequest → List LockRequest
  | [] => [x]
  | y :: ys => if reqLtB x y then x :: y :: ys else y :: insort x ys

/-- `bisect.insort` for the holders list. -/
def insortHold (x : LockHold) : List LockHold → List LockHold
  | [] => [x]
  | y :: ys => if holdLtB x y then x :: y :: ys else y :: insortHold x ys

/-- `LockManager.client_removed` with the `itertools.count()` made explicit:
keep `x` when `x.client != client or (x.client == client and next(counter) != 0)`;
the counter is bumped exactly when `x.client == client` is evaluated to
decide the second disjunct, so the first matching element is dropped and
every later one kept. -/
def client_removed {α : Type} (getc : α → String) (client : String) (cnt : Nat) :
    List α → List α
  | [] => []
  | x :: xs =>
    if getc x ≠ client then x :: client_removed getc client cnt xs
    else (if cnt ≠ 0 then [x] else []) ++ client_removed getc client (cnt + 1) xs

/-- `next((tup for tup in l if tup.client == client), None)` used as a
boolean (a found namedtuple is always truthy). -/
def hasClientB (l : List LockRequest) (client : String) : Bool :=
  l.any fun t => t.client == client

/-- The same existence test on a holders list. -/
def holdsClientB (l : List LockHold) (client : String) : Bool :=
  l.any fun t => t.client == client

/-- `LockManager.find_client_index` together with the element it finds:
`next((i for (i, tup) in enumerate(l) if tup.client == client), None)`. -/
def findClientEntry (client : String) : List LockRequest → Option (Nat × LockRequest)
  | [] => none
  | x :: xs =>
    if x.client = client then some (0, x)
    else (findClientEntry client xs).map fun p => (p.1 + 1, p.2)

/-- The exclusive-grant poll of `LockManager.acquire`:
`not self.holders.get(name) and self.locks[name][0].client == client`.
During the wait loop `self.locks[name]` holds the entry of the caller, so the
head access cannot fail; an empty queue (a Python `IndexError`) is mapped
to `false`. -/
def exclusiveGrantable (st : LMState) (name client : String) : Bool :=
  (holdersOf st name).isEmpty &&
    match requestsOf st name with
    | [] => false
    | x :: _ => x.client == client

/-- The list comprehension of the shared-grant poll, with the
`itertools.count()` explicit:
`[x for x in self.locks[name] if x.lock_type < lock_type or (x.client == client and next(counter) != 0)]`.
`or` short-circuits, so the counter is bumped exactly when the first
disjunct is false and `x.client == client` holds; the first own entry of the caller is thus excluded, and every entry of strictly lower lock-type rank —
anywhere in the queue — is included. -/
def sharedBlockers (client : String) (lock_type : Int) (cnt : Nat) :
    List LockRequest → List LockRequest
  | [] => []
  | x :: xs =>
    if x.lock_type < lock_type then x :: sharedBlockers client lock_type cnt xs
    else if x.client = client then
      (if cnt ≠ 0 then [x] else []) ++ sharedBlockers client lock_type (cnt + 1) xs
    else sharedBlockers client lock_type cnt xs

/-- The shared-grant poll of `LockManager.acquire`:
`not any(x.lock_type < lock_type for x in self.holders.get(name, []))
and not [x for x in self.locks[name] if ...]`. -/
def sharedGrantable (st : LMState) (name client : String) (lock_type : Int) : Bool :=
  !((holdersOf st name).any fun x => decide (x.lock_type < lock_type)) &&
    (sharedBlockers client lock_type 0 (requestsOf st name)).isEmpty

/-- One pass of the wait-loop body of `acquire`: `some true` when the
grant condition for this lock type holds, `some false` when it does not,
`none` for an unknown lock type (the `ValueError` branch). -/
def grantPoll (st : LMState) (name client : String) (lock_type : Int) : Option Bool :=
  if lock_type = LOCK_EXCLUSIVE then some (exclusiveGrantable st name client)
  else if lock_type = LOCK_SHARED then some (sharedGrantable st name client lock_type)
  else none

/-- The enqueue phase of `LockManager.acquire` (the first `with self.mutex`
block): fail with `RepeatedAcquire` when the client already has an entry in
`requests[name]`, otherwise `bisect.insort` the new `LockRequest`. -/
def acquireEnqueue (st : LMState) (name client : String) (priority now lock_type : Int) :
    Except LMError LMState :=
  if hasClientB (requestsOf st name) client then .error .repeatedAcquire
  else .ok (setLocks st name (insort ⟨priority, now, lock_type, client⟩ (requestsOf st name)))

/-- `LockManager.acquire`, serial model: enqueue, then the wait loop
collapsed to one grantability poll (the state cannot change between polls
of a serial execution).  On grant, a `LockHold` timestamped `now2` is
insorted into `holders[name]` and the current queue entry of the client is
returned; on a failed poll the loop can only end in the timeout branch,
which removes the entry of the client from `requests[name]`; an unknown lock
type raises `ValueError` from inside the loop, after the enqueue. -/
def acquire (st : LMState) (name client : String) (priority now lock_type now2 : Int) :
    Except LMError LockRequest × LMState :=
  match acquireEnqueue st name client priority now lock_type with
  | .error e => (.error e, st)
  | .ok st1 =>
    match grantPoll st1 name client lock_type with
    | none => (.error .invalidArgument, st1)
    | some true =>
      -- `self.locks[name][client_index]`: the entry of the client is present
      -- after the enqueue, so the fallback default is unreachable.
      let entry := ((findClientEntry client (requestsOf st1 name)).map Prod.snd).getD
        ⟨0, 0, 0, ""⟩
      (.ok entry, setHolders st1 name (insortHold ⟨lock_type, client, now2⟩ (holdersOf st1 name)))
    | some false =>
      (.error .timeout, setLocks st1 name (client_removed LockRequest.client client 0
        (requestsOf st1 name)))

/-- `LockManager.release`.  The four `NotFound` checks run in the order of
the source; note that the fourth one (`no client ... against lock`) fires
only after `holders[lockname]` has already been replaced, so that failure
leaves the holders mutation in place — the returned state records it.
The final `if requests: ... else: raise` re-test is redundant
(the first check already established truthiness) and is folded away. -/
def release (st : LMState) (lockname client : String) :
    Except LMError Unit × LMState :=
  let requests := st.locks lockname
  let holding := st.holders lockname
  if pyFalsy requests then (.error .notFound, st)
  else if pyFalsy holding then (.error .notFound, st)
  else
    let reqs := requests.getD []
    let hold := holding.getD []
    let holding2 := client_removed LockHold.client client 0 hold
    if hold.length ≠ holding2.length then
      let st1 := setHolders st lockname holding2
      let requests2 := client_removed LockRequest.client client 0 reqs
      if reqs.length ≠ requests2.length then (.ok (), setLocks st1 lockname requests2)
      else (.error .notFound, st1)
    else (.error .notFound, st)

/-- `LockManager.modify_priority`.  `if client_index:` is Python
truthiness: it takes the error branch both when the client is absent
(`None`) and when its entry is the first of the queue (index `0`). -/
def modify_priority (st : LMState) (name client : String) (new_priority now : Int) :
    Except LMError Int × LMState :=
  let requests := st.locks name
  if pyFalsy requests then (.error .notFound, st)
  else
    let reqs := requests.getD []
    match findClientEntry client reqs with
    | none => (.error .notFound, st)
    | some (i, old_request) =>
      if i = 0 then (.error .notFound, st)
      else
        let new_request : LockRequest :=
          ⟨new_priority, now, old_request.lock_type, old_request.client⟩
        (.ok old_request.priority, setLocks st name (insort new_request (reqs.eraseIdx i)))

/-- `LockManager.get_state`: returns the pair of dicts (in the source,
direct references to the mutable internals). -/
def get_state (st : LMState) :
    (String → Option (List LockRequest)) × (String → Option (List LockHold)) :=
  (st.locks, st.holders)

/-! ## The composite sort key as a lexicographic order -/

/-- The comparison key of a `LockRequest`, as a nested lexicographic
product, matching Python tuple comparison. -/
def reqKey (r : LockRequest) : Lex (Int × Lex (Int × Lex (Int × String))) :=
  toLex (r.priority, toLex (r.request_timestamp, toLex (r.lock_type, r.client)))

/-- The boolean comparison `reqLtB` computes the strict lexicographic
order on keys. -/
theorem reqLtB_iff (a b : LockRequest) : reqLtB a b = true ↔ reqKey a < reqKey b := by
  simp [reqLtB, reqKey, Prod.Lex.lt_iff]

/-- Tuple comparison is asymmetric. -/
theorem reqLtB_asymm {a b : LockRequest} (h : reqLtB a b = true) : reqLtB b a = false := by
  rw [Bool.eq_false_iff]
  intro h2
  rw [reqLtB_iff] at h h2
  exact absurd h2 (lt_asymm h)

/-- If `x < y` and `z` is not below `y`, then `z` is not below `x`. -/
theorem reqLtB_shift {x y z : LockRequest} (h1 : reqLtB x y = true) (h2 : reqLtB z y = false) :
    reqLtB z x = false := by
  rw [Bool.eq_false_iff]
  intro h3
  have hc : reqLtB z y = true :=
    (reqLtB_iff z y).mpr (lt_trans ((reqLtB_iff z x).mp h3) ((reqLtB_iff x y).mp h1))
  rw [h2] at hc
  exact Bool.false_ne_true hc

/-- The non-strict order underlying the queue: `a` does not come after `b`. -/
def reqLe (a b : LockRequest) : Prop := reqLtB b a = false

/-- A request queue is sorted ascending by the composite key
`(priority, request_timestamp, lock_type, client)`. -/
def sortedReq (l : List LockRequest) : Prop := l.Pairwise reqLe

/-! ## Lemmas about `insort` -/

/-- `insort` adds exactly one element. -/
theorem insort_length (x : LockRequest) (l : List LockRequest) :
    (insort x l).length = l.length + 1 := by
  induction l with
  | nil => rfl
  | cons y ys ih =>
    by_cases h : reqLtB x y = true
    · simp [insort, h]
    · simp only [Bool.not_eq_true] at h
      simp [insort, h, ih]

/-- `insort` splits the input around the inserted element. -/
theorem insort_decomp (x : LockRequest) (l : List LockRequest) :
    ∃ l₁ l₂, l = l₁ ++ l₂ ∧ insort x l = l₁ ++ x :: l₂ := by
  induction l with
  | nil => exact ⟨[], [], rfl, rfl⟩
  | cons y ys ih =>
    by_cases h : reqLtB x y = true
    · exact ⟨[], y :: ys, rfl, by simp [insort, h]⟩
    · obtain ⟨l₁, l₂, he, hi⟩ := ih
      refine ⟨y :: l₁, l₂, by simp [he], ?_⟩
      simp only [Bool.not_eq_true] at h
      simp [insort, h, hi]

/-- Membership in an `insort` result. -/
theorem mem_insort {z x : LockRequest} {l : List LockRequest} (h : z ∈ insort x l) :
    z = x ∨ z ∈ l := by
  induction l with
  | nil => simpa [insort] using h
  | cons y ys ih =>
    by_cases hlt : reqLtB x y = true
    · simp only [insort, hlt, if_true, List.mem_cons] at h
      rcases h with h | h | h
      · exact Or.inl h
      · exact Or.inr (by simp [h])
      · exact Or.inr (by simp [h])
    · simp only [Bool.not_eq_true] at hlt
      simp only [insort, hlt, Bool.false_eq_true, if_false, List.mem_cons] at h
      rcases h with h | h
      · exact Or.inr (by simp [h])
      · rcases ih h with h | h
        · exact Or.inl h
        · exact Or.inr (by simp [h])

/-- The inserted element is a member of the result. -/
theorem self_mem_insort (x : LockRequest) (l : List LockRequest) : x ∈ insort x l := by
  obtain ⟨l₁, l₂, _, hi⟩ := insort_decomp x l
  simp [hi]

/-- `insort` preserves sortedness (the reason `bisect.insort` keeps the
queue ordered). -/
theorem sortedReq_insort {l : List LockRequest} (h : sortedReq l) (x : LockRequest) :
    sortedReq (insort x l) := by
  induction l with
  | nil => simp [insort, sortedReq]
  | cons y ys ih =>
    rw [sortedReq, List.pairwise_cons] at h
    obtain ⟨hy, hys⟩ := h
    by_cases hlt : reqLtB x y = true
    · rw [sortedReq]
      simp only [insort, hlt, if_true]
      rw [List.pairwise_cons]
      constructor
      · intro z hz
        rcases List.mem_cons.mp hz with h | h
        · exact h ▸ reqLtB_asymm hlt
        · exact reqLtB_shift hlt (hy z h)
      · rw [List.pairwise_cons]
        exact ⟨hy, hys⟩
    · simp only [Bool.not_eq_true] at hlt
      rw [sortedReq]
      simp only [insort, hlt, Bool.false_eq_true, if_false]
      rw [List.pairwise_cons]
      constructor
      · intro z hz
        rcases mem_insort hz with h | h
        · exact h ▸ hlt
        · exact hy z h
      · exact ih hys

/-- A sublist of a sorted queue is sorted. -/
theorem sortedReq_sublist {l₁ l₂ : List LockRequest} (hs : List.Sublist l₁ l₂)
    (h : sortedReq l₂) : sortedReq l₁ :=
  List.Pairwise.sublist hs h

/-! ## Lemmas about `client_removed` -/

/-- Once the counter is positive, `client_removed` keeps everything. -/
theorem client_removed_pos {α : Type} (getc : α → String) (client : String) {cnt : Nat}
    (h : cnt ≠ 0) (l : List α) : client_removed getc client cnt l = l := by
  induction l generalizing cnt with
  | nil => rfl
  | cons x xs ih =>
    by_cases hx : getc x = client
    · simp [client_removed, hx, h, ih (Nat.succ_ne_zero cnt)]
    · simp [client_removed, hx, ih h]

/-- `client_removed` is the identity when no element matches. -/
theorem client_removed_of_not_mem {α : Type} (getc : α → String) (client : String) (cnt : Nat)
    {l : List α} (h : ∀ x ∈ l, getc x ≠ client) : client_removed getc client cnt l = l := by
  induction l with
  | nil => rfl
  | cons x xs ih =>
    have hx : getc x ≠ client := h x (List.mem_cons_self x xs)
    simp [client_removed, hx, ih fun y hy => h y (List.mem_cons_of_mem x hy)]

/-- `client_removed` distributes over an unmatched prefix. -/
theorem client_removed_append {α : Type} (getc : α → String) (client : String) (cnt : Nat)
    {l₁ : List α} (l₂ : List α) (h : ∀ x ∈ l₁, getc x ≠ client) :
    client_removed getc client cnt (l₁ ++ l₂) = l₁ ++ client_removed getc client cnt l₂ := by
  induction l₁ with
  | nil => rfl
  | cons x xs ih =>
    have hx : getc x ≠ client := h x (List.mem_cons_self x xs)
    simp [client_removed, hx, ih fun y hy => h y (List.mem_cons_of_mem x hy)]

/-- The result of `client_removed` is a sublist of the input. -/
theorem client_removed_sublist {α : Type} (getc : α → String) (client : String) (cnt : Nat)
    (l : List α) : List.Sublist (client_removed getc client cnt l) l := by
  induction l generalizing cnt with
  | nil => exact List.Sublist.refl []
  | cons x xs ih =>
    by_cases hx : getc x = client
    · by_cases hc : cnt = 0
      · subst hc
        simpa [client_removed, hx] using List.Sublist.cons x (ih 1)
      · simpa [client_removed, hx, hc] using List.Sublist.cons₂ x (ih (cnt + 1))
    · simpa [client_removed, hx] using List.Sublist.cons₂ x (ih cnt)

/-- When some element matches, `client_removed` at counter `0` removes
exactly the first match and keeps everything else in order. -/
theorem client_removed_decomp {α : Type} (getc : α → String) (client : String)
    {l : List α} (h : ∃ x ∈ l, getc x = client) :
    ∃ l₁ e l₂, l = l₁ ++ e :: l₂ ∧ getc e = client ∧ (∀ x ∈ l₁, getc x ≠ client) ∧
      client_removed getc client 0 l = l₁ ++ l₂ := by
  induction l with
  | nil => simp at h
  | cons x xs ih =>
    by_cases hx : getc x = client
    · exact ⟨[], x, xs, rfl, hx, by simp, by
        simp [client_removed, hx, client_removed_pos getc client one_ne_zero xs]⟩
    · obtain ⟨y, hy, hyc⟩ := h
      rcases List.mem_cons.mp hy with rfl | hy
      · exact absurd hyc hx
      · obtain ⟨l₁, e, l₂, he, hec, hl₁, hcr⟩ := ih ⟨y, hy, hyc⟩
        refine ⟨x :: l₁, e, l₂, by simp [he], hec, ?_, ?_⟩
        · intro z hz
          rcases List.mem_cons.mp hz with rfl | hz
          · exact hx
          · exact hl₁ z hz
        · simp [client_removed, hx, hcr]

/-- The length of `client_removed` at counter `0` drops by one exactly
when some element matches. -/
theorem client_removed_length_ne_iff {α : Type} (getc : α → String) (client : String)
    (l : List α) :
    (client_removed getc client 0 l).length ≠ l.length ↔ ∃ x ∈ l, getc x = client := by
  constructor
  · intro h
    by_contra hc
    push_neg at hc
    exact h (by rw [client_removed_of_not_mem getc client 0 hc])
  · intro h
    obtain ⟨l₁, e, l₂, he, _, _, hcr⟩ := client_removed_decomp getc client h
    rw [hcr, he]
    simp

/-- Removing the freshly insorted element of an otherwise unmatched queue
restores the queue. -/
theorem client_removed_insort {q : List LockRequest} {client : String} {x : LockRequest}
    (hx : x.client = client) (hq : ∀ y ∈ q, y.client ≠ client) :
    client_removed LockRequest.client client 0 (insort x q) = q := by
  obtain ⟨l₁, l₂, he, hi⟩ := insort_decomp x q
  have h₁ : ∀ y ∈ l₁, y.client ≠ client := fun y hy => hq y (he ▸ List.mem_append_left l₂ hy)
  have h₂ : ∀ y ∈ l₂, y.client ≠ client := fun y hy => hq y (he ▸ List.mem_append_right l₁ hy)
  rw [hi, client_removed_append LockRequest.client client 0 (x :: l₂) h₁]
  simp [client_removed, hx, client_removed_pos LockRequest.client client one_ne_zero l₂, he]

/-! ## Lemmas about the state maps -/

/-- Reading `requests` after a write to the same or another name. -/
theorem requestsOf_setLocks (st : LMState) (name : String) (l : List LockRequest) (n : String) :
    requestsOf (setLocks st name l) n = if n = name then l else requestsOf st n := by
  by_cases h : n = name <;> simp [requestsOf, setLocks, h]

/-- Writing the holders map does not change the requests map. -/
theorem requestsOf_setHolders (st : LMState) (name : String) (hl : List LockHold) (n : String) :
    requestsOf (setHolders st name hl) n = requestsOf st n := rfl

/-- Reading `holders` after a write to the same or another name. -/
theorem holdersOf_setHolders (st : LMState) (name : String) (hl : List LockHold) (n : String) :
    holdersOf (setHolders st name hl) n = if n = name then hl else holdersOf st n := by
  by_cases h : n = name <;> simp [holdersOf, setHolders, h]

/-- Writing the requests map does not change the holders map. -/
theorem holdersOf_setLocks (st : LMState) (name : String) (l : List LockRequest) (n : String) :
    holdersOf (setLocks st name l) n = holdersOf st n := rfl

/-- `hasClientB` as an existence statement. -/
theorem hasClientB_iff {l : List LockRequest} {client : String} :
    hasClientB l client = true ↔ ∃ x ∈ l, x.client = client := by
  simp [hasClientB]

/-- The negation of `hasClientB` as a universal statement. -/
theorem hasClientB_eq_false_iff {l : List LockRequest} {client : String} :
    hasClientB l client = false ↔ ∀ x ∈ l, x.client ≠ client := by
  rw [← Bool.not_eq_true, hasClientB_iff]
  push_neg
  rfl

/-- `holdsClientB` as an existence statement. -/
theorem holdsClientB_iff {l : List LockHold} {client : String} :
    holdsClientB l client = true ↔ ∃ x ∈ l, x.client = client := by
  simp [holdsClientB]

/-! ## The queue-sortedness invariant -/

/-- Every request queue of the state is sorted by the composite key. -/
def sortedInv (st : LMState) : Prop := ∀ name, sortedReq (requestsOf st name)

/-- The initial state satisfies the sortedness invariant. -/
theorem sortedInv_init : sortedInv initState := by
  intro name
  exact List.Pairwise.nil

/-- Writing a sorted queue preserves the invariant. -/
theorem sortedInv_setLocks {st : LMState} (h : sortedInv st) {name : String}
    {l : List LockRequest} (hl : sortedReq l) : sortedInv (setLocks st name l) := by
  intro n
  rw [requestsOf_setLocks]
  by_cases hn : n = name
  · simpa [hn] using hl
  · simpa [hn] using h n

/-- Writing the holders map preserves the invariant. -/
theorem sortedInv_setHolders {st : LMState} (h : sortedInv st) (name : String)
    (hl : List LockHold) : sortedInv (setHolders st name hl) := fun n => h n

/-- `acquire` preserves the sortedness invariant in every outcome
(repeated-acquire failure, grant, timeout removal, unknown lock type). -/
theorem acquire_preserves_sortedInv (st : LMState) (name client : String)
    (priority now lock_type now2 : Int) (h : sortedInv st) :
    sortedInv (acquire st name client priority now lock_type now2).2 := by
  by_cases hc : hasClientB (requestsOf st name) client = true
  · simpa [acquire, acquireEnqueue, hc] using h
  · rw [Bool.not_eq_true] at hc
    have h1 : sortedInv (setLocks st name
        (insort ⟨priority, now, lock_type, client⟩ (requestsOf st name))) :=
      sortedInv_setLocks h (sortedReq_insort (h name) _)
    rcases hg : grantPoll (setLocks st name
        (insort ⟨priority, now, lock_type, client⟩ (requestsOf st name))) name client lock_type
      with _ | b
    · simpa [acquire, acquireEnqueue, hc, hg] using h1
    · cases b
      · simp only [acquire, acquireEnqueue, hc, Bool.false_eq_true, if_false, hg]
        exact sortedInv_setLocks h1 (sortedReq_sublist
          (client_removed_sublist LockRequest.client client 0 _) (h1 name))
      · simp only [acquire, acquireEnqueue, hc, Bool.false_eq_true, if_false, hg]
        exact sortedInv_setHolders h1 name _

/-- `release` preserves the sortedness invariant in every outcome,
including the defensive fourth error branch that keeps a holders
mutation. -/
theorem release_preserves_sortedInv (st : LMState) (lockname client : String)
    (h : sortedInv st) : sortedInv (release st lockname client).2 := by
  by_cases h1 : pyFalsy (st.locks lockname) = true
  · simpa [release, h1] using h
  · by_cases h2 : pyFalsy (st.holders lockname) = true
    · simpa [release, h1, h2] using h
    · by_cases h3 : ((st.holders lockname).getD []).length =
        (client_removed LockHold.client client 0 ((st.holders lockname).getD [])).length
      · simpa [release, h1, h2, h3] using h
      · by_cases h4 : ((st.locks lockname).getD []).length =
          (client_removed LockRequest.client client 0 ((st.locks lockname).getD [])).length
        · simpa [release, h1, h2, h3, h4] using
            sortedInv_setHolders h lockname
              (client_removed LockHold.client client 0 ((st.holders lockname).getD []))
        · have hsub : sortedReq (client_removed LockRequest.client client 0
              ((st.locks lockname).getD [])) :=
            sortedReq_sublist (client_removed_sublist LockRequest.client client 0 _) (h lockname)
          simpa [release, h1, h2, h3, h4] using
            sortedInv_setLocks (sortedInv_setHolders h lockname _) hsub

/-- `modify_priority` preserves the sortedness invariant: the only
mutation deletes one entry and insorts its replacement. -/
theorem modify_preserves_sortedInv (st : LMState) (name client : String)
    (new_priority now : Int) (h : sortedInv st) :
    sortedInv (modify_priority st name client new_priority now).2 := by
  by_cases h1 : pyFalsy (st.locks name) = true
  · simpa [modify_priority, h1] using h
  · rcases hf : findClientEntry client ((st.locks name).getD []) with _ | p
    · simpa [modify_priority, h1, hf] using h
    · by_cases hi : p.1 = 0
      · simpa [modify_priority, h1, hf, hi] using h
      · have hsub : sortedReq (((st.locks name).getD []).eraseIdx p.1) :=
          sortedReq_sublist (List.eraseIdx_sublist _ p.1) (h name)
        simpa [modify_priority, h1, hf, hi] using
          sortedInv_setLocks h (sortedReq_insort hsub _)

/-- One serialized engine operation, as a relation on states. -/
inductive Step : LMState → LMState → Prop where
  | acq (st : LMState) (name client : String) (priority now lock_type now2 : Int) :
      Step st (acquire st name client priority now lock_type now2).2
  | rel (st : LMState) (lockname client : String) :
      Step st (release st lockname client).2
  | mod (st : LMState) (name client : String) (new_priority now : Int) :
      Step st (modify_priority st name client new_priority now).2

/-- States reachable from the empty initial state by engine operations. -/
inductive Reachable : LMState → Prop where
  | init : Reachable initState
  | step {st st' : LMState} : Reachable st → Step st st' → Reachable st'

/-! ## Claims -/

/-- C8: for every name, `requests[name]` being sorted ascending by the
composite key `(priority, requestTimestamp, lockType, client)` is an
invariant preserved by every engine operation, starting from the empty
initial state: every reachable state has all its queues sorted. -/
theorem queue_sorted_invariant {st : LMState} (h : Reachable st) (name : String) :
    sortedReq (requestsOf st name) := by
  suffices hinv : sortedInv st from hinv name
  induction h with
  | init => exact sortedInv_init
  | step _ hstep ih =>
    cases hstep with
    | acq n c p t lt t2 => exact acquire_preserves_sortedInv _ n c p t lt t2 ih
    | rel ln c => exact release_preserves_sortedInv _ ln c ih
    | mod n c np t => exact modify_preserves_sortedInv _ n c np t ih

/-- Witness for C8: the queue of a concrete reachable state (one exclusive
acquire from the initial state) is sorted. -/
theorem queue_sorted_invariant_witness :
    sortedReq (requestsOf (acquire initState "L" "A" 2 0 LOCK_EXCLUSIVE 1).2 "L") :=
  queue_sorted_invariant
    (Reachable.step Reachable.init (Step.acq initState "L" "A" 2 0 LOCK_EXCLUSIVE 1)) "L"

/-- C4: if some entry of `requests[name]` already has this client, the
enqueue phase fails with `RepeatedAcquire` and the whole call leaves the
state unchanged; otherwise it inserts exactly one new
`LockRequest(priority, now, lockType, client)` into `requests[name]`
(length grows by one, the old queue splits around the new entry) at a
position that keeps the queue sorted. -/
theorem acquire_enqueue_spec (st : LMState) (name client : String)
    (priority now lock_type : Int) :
    (hasClientB (requestsOf st name) client = true →
      acquireEnqueue st name client priority now lock_type = .error .repeatedAcquire ∧
      ∀ now2, acquire st name client priority now lock_type now2 =
        (.error .repeatedAcquire, st)) ∧
    (hasClientB (requestsOf st name) client = false →
      acquireEnqueue st name client priority now lock_type =
        .ok (setLocks st name
          (insort ⟨priority, now, lock_type, client⟩ (requestsOf st name))) ∧
      (insort ⟨priority, now, lock_type, client⟩ (requestsOf st name)).length =
        (requestsOf st name).length + 1 ∧
      (∃ l₁ l₂, requestsOf st name = l₁ ++ l₂ ∧
        insort ⟨priority, now, lock_type, client⟩ (requestsOf st name) =
          l₁ ++ ⟨priority, now, lock_type, client⟩ :: l₂) ∧
      (sortedReq (requestsOf st name) →
        sortedReq (insort ⟨priority, now, lock_type, client⟩ (requestsOf st name)))) := by
  constructor
  · intro h
    exact ⟨by simp [acquireEnqueue, h], fun now2 => by simp [acquire, acquireEnqueue, h]⟩
  · intro h
    exact ⟨by simp [acquireEnqueue, h], insort_length _ _, insort_decomp _ _,
      fun hs => sortedReq_insort hs _⟩

/-- A state with client `A` queued on lock `L`, for the C4 witness. -/
def stC4 : LMState := setLocks initState "L" [⟨2, 0, LOCK_EXCLUSIVE, "A"⟩]

/-- Witness for C4: on `stC4`, a second acquire by `A` fails with
`RepeatedAcquire` leaving the state unchanged, and an enqueue by a fresh
client `B` succeeds with the insorted queue. -/
theorem acquire_enqueue_spec_witness :
    (hasClientB (requestsOf stC4 "L") "A" = true ∧
      acquire stC4 "L" "A" 3 9 LOCK_EXCLUSIVE 9 = (.error .repeatedAcquire, stC4)) ∧
    (hasClientB (requestsOf stC4 "L") "B" = false ∧
      acquireEnqueue stC4 "L" "B" 1 9 LOCK_EXCLUSIVE =
        .ok (setLocks stC4 "L" (insort ⟨1, 9, LOCK_EXCLUSIVE, "B"⟩ (requestsOf stC4 "L")))) :=
  ⟨⟨by decide, ((acquire_enqueue_spec stC4 "L" "A" 3 9 LOCK_EXCLUSIVE).1 (by decide)).2 9⟩,
    ⟨by decide, ((acquire_enqueue_spec stC4 "L" "B" 1 9 LOCK_EXCLUSIVE).2 (by decide)).1⟩⟩

/-- C10: calling `acquire` with a lock type other than Exclusive and
Shared, on a state where the client is not yet queued, raises the
invalid-argument error only after the enqueue phase has run: the freshly
inserted request stays in `requests[name]` after the failure. -/
theorem acquire_unknown_type_spec (st : LMState) (name client : String)
    (priority now lock_type now2 : Int)
    (h1 : lock_type ≠ LOCK_EXCLUSIVE) (h2 : lock_type ≠ LOCK_SHARED)
    (hq : hasClientB (requestsOf st name) client = false) :
    acquire st name client priority now lock_type now2 =
      (.error .invalidArgument,
        setLocks st name (insort ⟨priority, now, lock_type, client⟩ (requestsOf st name))) ∧
    hasClientB (requestsOf (acquire st name client priority now lock_type now2).2 name)
      client = true := by
  have hmain : acquire st name client priority now lock_type now2 =
      (.error .invalidArgument,
        setLocks st name (insort ⟨priority, now, lock_type, client⟩ (requestsOf st name))) := by
    simp [acquire, acquireEnqueue, hq, grantPoll, h1, h2]
  refine ⟨hmain, ?_⟩
  rw [hmain]
  rw [show requestsOf (setLocks st name
      (insort ⟨priority, now, lock_type, client⟩ (requestsOf st name))) name =
      insort ⟨priority, now, lock_type, client⟩ (requestsOf st name) by
    rw [requestsOf_setLocks]; simp]
  exact hasClientB_iff.mpr ⟨⟨priority, now, lock_type, client⟩, self_mem_insort _ _, rfl⟩

/-- Witness for C10: lock type `3` on the empty state leaves the enqueued
request of client `A` in the queue while the call fails. -/
theorem acquire_unknown_type_spec_witness :
    hasClientB (requestsOf (acquire initState "L" "A" 2 0 3 1).2 "L") "A" = true :=
  (acquire_unknown_type_spec initState "L" "A" 2 0 3 1 (by decide) (by decide) (by decide)).2

/-- C6: when the wait phase of `acquire` can only end by timeout (the
grantability poll is negative on the enqueued state), the call fails with
`Timeout`, the freshly enqueued request of the client is removed (the
queue is exactly what it was before the call, with no entry for the
client), and the holders map is untouched (no `LockHold` is added). -/
theorem acquire_timeout_spec (st : LMState) (name client : String)
    (priority now lock_type now2 : Int)
    (hq : hasClientB (requestsOf st name) client = false)
    (hpoll : grantPoll (setLocks st name (insort ⟨priority, now, lock_type, client⟩
      (requestsOf st name))) name client lock_type = some false) :
    (acquire st name client priority now lock_type now2).1 = .error .timeout ∧
    requestsOf (acquire st name client priority now lock_type now2).2 name =
      requestsOf st name ∧
    hasClientB (requestsOf (acquire st name client priority now lock_type now2).2 name)
      client = false ∧
    (acquire st name client priority now lock_type now2).2.holders = st.holders := by
  have hrm : client_removed LockRequest.client client 0
      (insort ⟨priority, now, lock_type, client⟩ (requestsOf st name)) = requestsOf st name :=
    client_removed_insort rfl (hasClientB_eq_false_iff.mp hq)
  have hmain : acquire st name client priority now lock_type now2 =
      (.error .timeout,
        setLocks (setLocks st name (insort ⟨priority, now, lock_type, client⟩
            (requestsOf st name))) name
          (client_removed LockRequest.client client 0
            (requestsOf (setLocks st name (insort ⟨priority, now, lock_type, client⟩
              (requestsOf st name))) name))) := by
    unfold acquire
    rw [show acquireEnqueue st name client priority now lock_type =
        .ok (setLocks st name (insort ⟨priority, now, lock_type, client⟩ (requestsOf st name)))
      from by simp [acquireEnqueue, hq]]
    dsimp only
    rw [hpoll]
  refine ⟨?_, ?_, ?_, ?_⟩
  · rw [hmain]
  · rw [hmain]
    simp [requestsOf_setLocks, hrm]
  · rw [hmain]
    simp [requestsOf_setLocks, hrm, hq]
  · rw [hmain]
    rfl

/-- A state where client `A` holds lock `L` exclusively, for the C6
witness. -/
def stC6 : LMState :=
  setHolders (setLocks initState "L" [⟨2, 0, LOCK_EXCLUSIVE, "A"⟩]) "L"
    [⟨LOCK_EXCLUSIVE, "A", 1⟩]

/-- Witness for C6: client `B` times out against the exclusive holder `A`;
the queue reverts to just the request of `A` and no hold is added. -/
theorem acquire_timeout_spec_witness :
    (acquire stC6 "L" "B" 2 5 LOCK_EXCLUSIVE 6).1 = .error .timeout ∧
    requestsOf (acquire stC6 "L" "B" 2 5 LOCK_EXCLUSIVE 6).2 "L" = requestsOf stC6 "L" ∧
    hasClientB (requestsOf (acquire stC6 "L" "B" 2 5 LOCK_EXCLUSIVE 6).2 "L") "B" = false ∧
    (acquire stC6 "L" "B" 2 5 LOCK_EXCLUSIVE 6).2.holders = stC6.holders :=
  acquire_timeout_spec stC6 "L" "B" 2 5 LOCK_EXCLUSIVE 6 (by decide) (by decide)

/-- Number of entries of a list whose client field matches (for stating
the at-most-once invariant of the spec). -/
def countMatch {α : Type} (getc : α → String) (client : String) (l : List α) : Nat :=
  l.countP fun x => getc x == client

/-- Under the at-most-once invariant, once the first match is removed the
remainder has no match at all. -/
theorem not_mem_of_countMatch_le_one {α : Type} (getc : α → String) (client : String)
    {l₁ : List α} {e : α} {l₂ : List α}
    (h : countMatch getc client (l₁ ++ e :: l₂) ≤ 1) (he : getc e = client) :
    ∀ x ∈ l₁ ++ l₂, getc x ≠ client := by
  intro x hx hxc
  have hcount : countMatch getc client (l₁ ++ e :: l₂) =
      countMatch getc client l₁ + (countMatch getc client l₂ + 1) := by
    simp [countMatch, List.countP_append, List.countP_cons, he]
  have hpos : 0 < countMatch getc client l₁ + countMatch getc client l₂ := by
    rcases List.mem_append.mp hx with hx | hx
    · have : 0 < countMatch getc client l₁ :=
        List.countP_pos_iff.mpr ⟨x, hx, by simp [hxc]⟩
      omega
    · have : 0 < countMatch getc client l₂ :=
        List.countP_pos_iff.mpr ⟨x, hx, by simp [hxc]⟩
      omega
  omega

/-- C5: a successful `release(name, client)` removes exactly one entry for
the client from `holders[name]` and exactly one from `requests[name]`
(each length drops by one; the other entries keep their order), and —
under the at-most-once invariant — immediately repeating the same release
on the resulting state raises `NotFound`: release is not idempotent. -/
theorem release_success_spec (st : LMState) (name client : String) (st' : LMState)
    (hh : countMatch LockHold.client client (holdersOf st name) ≤ 1)
    (hr : countMatch LockRequest.client client (requestsOf st name) ≤ 1)
    (hrel : release st name client = (.ok (), st')) :
    (holdersOf st' name).length + 1 = (holdersOf st name).length ∧
    (requestsOf st' name).length + 1 = (requestsOf st name).length ∧
    (∃ h₁ e h₂, holdersOf st name = h₁ ++ e :: h₂ ∧ e.client = client ∧
      holdersOf st' name = h₁ ++ h₂) ∧
    (∃ r₁ e r₂, requestsOf st name = r₁ ++ e :: r₂ ∧ e.client = client ∧
      requestsOf st' name = r₁ ++ r₂) ∧
    (release st' name client).1 = .error .notFound := by
  by_cases h1 : pyFalsy (st.locks name) = true
  · simp [release, h1] at hrel
  · by_cases h2 : pyFalsy (st.holders name) = true
    · simp [release, h1, h2] at hrel
    · by_cases h3 : ((st.holders name).getD []).length =
        (client_removed LockHold.client client 0 ((st.holders name).getD [])).length
      · simp [release, h1, h2, h3] at hrel
      · by_cases h4 : ((st.locks name).getD []).length =
          (client_removed LockRequest.client client 0 ((st.locks name).getD [])).length
        · simp [release, h1, h2, h3, h4] at hrel
        · have hst' : st' = setLocks (setHolders st name
              (client_removed LockHold.client client 0 ((st.holders name).getD []))) name
              (client_removed LockRequest.client client 0 ((st.locks name).getD [])) := by
            have h5 := hrel
            simp [release, h1, h2, h3, h4] at h5
            exact h5.symm
          have hhm : ∃ x ∈ (st.holders name).getD [], LockHold.client x = client :=
            (client_removed_length_ne_iff LockHold.client client _).mp fun hc => h3 hc.symm
          have hrm : ∃ x ∈ (st.locks name).getD [], LockRequest.client x = client :=
            (client_removed_length_ne_iff LockRequest.client client _).mp fun hc => h4 hc.symm
          obtain ⟨h₁, eh, h₂, hhe, hhec, hhl₁, hhcr⟩ :=
            client_removed_decomp LockHold.client client hhm
          obtain ⟨r₁, er, r₂, hre, hrec, hrl₁, hrcr⟩ :=
            client_removed_decomp LockRequest.client client hrm
          have hhold' : holdersOf st' name = h₁ ++ h₂ := by
            rw [hst']
            rw [show holdersOf (setLocks (setHolders st name
                (client_removed LockHold.client client 0 ((st.holders name).getD []))) name
                (client_removed LockRequest.client client 0 ((st.locks name).getD []))) name =
              client_removed LockHold.client client 0 ((st.holders name).getD [])
              from by rw [holdersOf_setLocks, holdersOf_setHolders]; simp]
            exact hhcr
          have hreq' : requestsOf st' name =
              client_removed LockRequest.client client 0 ((st.locks name).getD []) := by
            rw [hst', requestsOf_setLocks]
            simp
          have hh' : countMatch LockHold.client client ((st.holders name).getD []) ≤ 1 := hh
          have hr' : countMatch LockRequest.client client ((st.locks name).getD []) ≤ 1 := hr
          have hhno : ∀ x ∈ h₁ ++ h₂, LockHold.client x ≠ client :=
            not_mem_of_countMatch_le_one LockHold.client client (hhe ▸ hh') hhec
          have hrno : ∀ x ∈ r₁ ++ r₂, LockRequest.client x ≠ client :=
            not_mem_of_countMatch_le_one LockRequest.client client (hre ▸ hr') hrec
          have hlocks' : st'.locks name = some (r₁ ++ r₂) := by
            rw [hst']
            simp [setLocks, hrcr]
          have hholds' : st'.holders name = some (h₁ ++ h₂) := by
            rw [hst']
            simp [setLocks, setHolders, hhcr]
          have hrel2 : (release st' name client).1 = .error .notFound := by
            by_cases he1 : (r₁ ++ r₂).isEmpty = true
            · simp [release, pyFalsy, hlocks', he1]
            · by_cases he2 : (h₁ ++ h₂).isEmpty = true
              · simp [release, pyFalsy, hlocks', hholds', he1, he2]
              · have hid : client_removed LockHold.client client 0 (h₁ ++ h₂) = h₁ ++ h₂ :=
                  client_removed_of_not_mem LockHold.client client 0 hhno
                simp [release, pyFalsy, hlocks', hholds', he1, he2, hid]
          refine ⟨?_, ?_, ⟨h₁, eh, h₂, hhe, hhec, hhold'⟩,
            ⟨r₁, er, r₂, hre, hrec, by rw [hreq', hrcr]⟩, hrel2⟩
          · rw [hhold', show holdersOf st name = h₁ ++ eh :: h₂ from hhe]
            simp
            omega
          · rw [hreq', hrcr, show requestsOf st name = r₁ ++ er :: r₂ from hre]
            simp
            omega

/-- A state where client `A` is queued on and holds lock `L`, for the C5
witness. -/
def stC5 : LMState :=
  setHolders (setLocks initState "L" [⟨1, 0, LOCK_EXCLUSIVE, "A"⟩]) "L"
    [⟨LOCK_EXCLUSIVE, "A", 2⟩]

/-- Witness for C5: releasing the lock of `A` succeeds once and the
immediate second release reports `NotFound`. -/
theorem release_success_spec_witness :
    (release (release stC5 "L" "A").2 "L" "A").1 = .error .notFound :=
  (release_success_spec stC5 "L" "A" (release stC5 "L" "A").2
    (by decide) (by decide) rfl).2.2.2.2

/-- C9: on a state satisfying the at-most-once invariant and the
holder-is-queued invariant (restricted to the name and client at hand),
a `release` that fails with `NotFound` leaves the engine state exactly as
it was: the defensive fourth error branch, the only one that mutates
before raising, is unreachable under the invariants. -/
theorem release_error_atomic (st : LMState) (name client : String) (e : LMError)
    (hinv1h : countMatch LockHold.client client (holdersOf st name) ≤ 1)
    (hinv1r : countMatch LockRequest.client client (requestsOf st name) ≤ 1)
    (hinv2 : holdsClientB (holdersOf st name) client = true →
      hasClientB (requestsOf st name) client = true)
    (herr : (release st name client).1 = .error e) :
    (release st name client).2 = st := by
  by_cases h1 : pyFalsy (st.locks name) = true
  · simp [release, h1]
  · by_cases h2 : pyFalsy (st.holders name) = true
    · simp [release, h1, h2]
    · by_cases h3 : ((st.holders name).getD []).length =
        (client_removed LockHold.client client 0 ((st.holders name).getD [])).length
      · simp [release, h1, h2, h3]
      · have hhm : ∃ x ∈ (st.holders name).getD [], LockHold.client x = client :=
          (client_removed_length_ne_iff LockHold.client client _).mp fun hc => h3 hc.symm
        have hreq : hasClientB (requestsOf st name) client = true :=
          hinv2 (holdsClientB_iff.mpr hhm)
        have hrm : ∃ x ∈ (st.locks name).getD [], LockRequest.client x = client :=
          hasClientB_iff.mp hreq
        have h4 : ((st.locks name).getD []).length ≠
            (client_removed LockRequest.client client 0 ((st.locks name).getD [])).length :=
          fun hc => ((client_removed_length_ne_iff LockRequest.client client _).mpr hrm) hc.symm
        exact absurd herr (by simp [release, h1, h2, h3, h4])

/-- A state where `B` is queued on and holds lock `L` and `A` is absent,
for the C9 witness. -/
def stC9 : LMState :=
  setHolders (setLocks initState "L" [⟨1, 0, LOCK_EXCLUSIVE, "B"⟩]) "L"
    [⟨LOCK_EXCLUSIVE, "B", 2⟩]

/-- Witness for C9: `A` cannot release the lock held by `B`; the call
fails with `NotFound` and the state is unchanged. -/
theorem release_error_atomic_witness :
    (release stC9 "L" "A").1 = .error .notFound ∧ (release stC9 "L" "A").2 = stC9 :=
  ⟨rfl, release_error_atomic stC9 "L" "A" .notFound (by decide) (by decide) (by decide) rfl⟩

/-- The shared-grant condition as the spec words it, for comparison with
the implemented `sharedGrantable`: no holder of the name has rank lower
than the requested type, and no entry of the queue that strictly precedes
the first entry of the requesting client has rank lower than the
requested type. -/
def specSharedGrantable (st : LMState) (name client : String) (lock_type : Int) : Bool :=
  (!((holdersOf st name).any fun x => decide (x.lock_type < lock_type))) &&
    (((requestsOf st name).takeWhile fun x => !(x.client == client)).all
      fun x => !decide (x.lock_type < lock_type))

/-- The C1 failing input: lock `L` has no holder and its queue holds the
Shared request of `A` (priority 1) followed by the Exclusive request of
`B` (priority 2). -/
def stC1 : LMState :=
  setLocks initState "L" [⟨1, 0, LOCK_SHARED, "A"⟩, ⟨2, 5, LOCK_EXCLUSIVE, "B"⟩]

/-- C1: the claim fails on the code.  On `stC1` there is no holder at all
and no entry preceding the request of `A`, so the claimed condition (the
spec-side `specSharedGrantable`) grants; but the implemented shared poll
scans the whole queue, so the Exclusive entry of `B` queued strictly
after `A` blocks the grant: the poll returns false. -/
theorem shared_poll_whole_queue_bug :
    requestsOf stC1 "L" = [⟨1, 0, LOCK_SHARED, "A"⟩, ⟨2, 5, LOCK_EXCLUSIVE, "B"⟩] ∧
    holdersOf stC1 "L" = [] ∧
    specSharedGrantable stC1 "L" "A" LOCK_SHARED = true ∧
    sharedGrantable stC1 "L" "A" LOCK_SHARED = false ∧
    sharedBlockers "A" LOCK_SHARED 0 (requestsOf stC1 "L") =
      [⟨2, 5, LOCK_EXCLUSIVE, "B"⟩] := by
  refine ⟨by decide, by decide, by decide, by decide, by decide⟩

/-- The C2 failing input: the entry of client `A` is the head (index 0)
of the queue of lock `L`. -/
def stC2 : LMState := setLocks initState "L" [⟨2, 0, LOCK_EXCLUSIVE, "A"⟩]

/-- C2: the claim fails on the code.  With the entry of `A` at index 0,
`modify_priority` takes the Python-truthiness branch `if client_index:`
and raises `NotFound` instead of changing the priority and returning the
old one; the state is untouched. -/
theorem modify_priority_index_zero_bug :
    findClientEntry "A" (requestsOf stC2 "L") = some (0, ⟨2, 0, LOCK_EXCLUSIVE, "A"⟩) ∧
    modify_priority stC2 "L" "A" 5 7 = (.error .notFound, stC2) := by
  exact ⟨by decide, rfl⟩

/-- Observable actions of the HTTP handler wrapper, in order: response
status lines, headers, and the wrapped engine operation running. -/
inductive HandlerEvent where
  | response (status : Nat)
  | header (key value : String)
  | endHeaders
  | engineOp
deriving DecidableEq, Repr

/-- The authentication prologue of `LockHttpHandler._http_wrap` followed
by the call of the wrapped handler, as the ordered list of observable
actions.  `b64decode` abstracts `base64.b64decode(...).decode("utf-8")`;
the slice `authorization[len("Basic "):]` is `String.drop 6`.  The source
compares nothing against the configured credential and does not return
after writing the 401, so the wrapped operation runs unconditionally
(the non-auth failure branches of the wrapper are not modelled here). -/
def httpWrapEvents (authentication : Option String) (authorization : Option String)
    (b64decode : String → String) : List HandlerEvent :=
  let authEvents :=
    if (match authentication with | none => false | some s => !s.isEmpty) then
      let auth_decode : Option String :=
        match authorization with
        | none => none
        | some a => if a.isEmpty then none else some (b64decode (a.drop 6))
      match auth_decode with
      | none =>
        [.response 401, .header "WWW-Authenticate" "Basic, charset=\"UTF-8\"", .endHeaders]
      | some s =>
        if s.isEmpty then
          [.response 401, .header "WWW-Authenticate" "Basic, charset=\"UTF-8\"", .endHeaders]
        else []
    else []
  authEvents ++ [.engineOp]

/-- C3: the claim fails on the code.  With the credential `user:password`
configured, a request whose authorization decodes to `evil:wrong` gets no
401 at all (the decoded value is never compared with the credential) and
the engine operation runs; and even a request with no Authorization
header, which does get the 401, still has the engine operation run —
the wrapper never short-circuits. -/
theorem auth_bypass_bug :
    httpWrapEvents (some "user:password") (some "Basic ZXZpbDp3cm9uZw==")
      (fun s => if s = "ZXZpbDp3cm9uZw==" then "evil:wrong" else "") = [.engineOp] ∧
    ("evil:wrong" : String) ≠ "user:password" ∧
    httpWrapEvents (some "user:password") none (fun _ => "") =
      [.response 401, .header "WWW-Authenticate" "Basic, charset=\"UTF-8\"", .endHeaders,
        .engineOp] := by
  refine ⟨by decide, by decide, by decide⟩

end LockServer
